import Mathlib

/-!
Verification of the value-decoding and read-resilience layer of the
benthos-umh OPC UA connector (`src/opcua_plugin/core_read.go`).

The Go source is shallowly embedded:

* `getBytesFromValue` (the Value Codec) becomes a pure Lean function from a
  `DataValue` and a `NodeDef` to a `DecodeResult`; the Go pair
  `([]byte, string)` becomes `(payload : Option String, tagType : String)`,
  where `none` models a nil byte slice and `some s` a (possibly empty)
  non-nil slice holding the bytes of `s`.  Log calls become a list of
  `LogEvent`s carrying severity and the identifiers the message names.
* `Read` (the Read Coordinator) becomes a function of the session client's
  outcome (`Except UAReadError ReadResponse`, modelling the pair returned by
  `g.Client.Read`) and of the result of `g.Close` (which the source
  discards); the number of `Close` invocations is recorded in the result.
* Go stdlib calls are modelled at their behavioural interface:
  `strconv.FormatInt`/`FormatUint`/`Itoa` as canonical decimal text (defined
  below and proved canonical), `strconv.FormatBool` as "true"/"false",
  `encoding/json.Marshal` on an opaque decoded value as an `Option String`
  (a value either marshals to fixed bytes or fails), compositionally for
  slices.  IEEE-754 float formatting is not modelled (see `formatFloat32`).
-/

namespace OpcuaPlugin

/-! ## Decimal formatting (model of strconv.FormatInt / FormatUint / Itoa) -/

/-- Decimal digit characters of a natural number, most significant first,
as produced by Go's strconv (`"0"` for zero, no leading zeros otherwise). -/
def natDigits (n : Nat) : List Char :=
  if h : n < 10 then [Char.ofNat (48 + n)]
  else natDigits (n / 10) ++ [Char.ofNat (48 + n % 10)]
  decreasing_by
    exact Nat.div_lt_self (Nat.pos_of_ne_zero (by omega)) (by omega)

/-- Model of `strconv.FormatUint(n, 10)`. -/
def formatUint (n : Nat) : String := ⟨natDigits n⟩

/-- Model of `strconv.FormatInt(v, 10)` (and `strconv.Itoa`): optional minus
sign followed by the decimal digits of the absolute value. -/
def formatInt (v : Int) : String :=
  if v < 0 then "-" ++ formatUint v.natAbs else formatUint v.natAbs

/-- Model of `strconv.FormatBool`. -/
def formatBool (b : Bool) : String := if b then "true" else "false"

/-- Numeric value of a list of decimal digit characters (used only to state
that the formatted text really denotes the formatted number). -/
def digitsVal (cs : List Char) : Nat :=
  cs.foldl (fun acc c => 10 * acc + (c.toNat - 48)) 0

/-- `s` is the canonical base-10 text of the integer `v`: an optional minus
sign exactly when `v < 0`, then decimal digit characters with no leading
zero, whose value is `|v|`. -/
def IsCanonicalDecimal (s : String) (v : Int) : Prop :=
  match s.data with
  | '-' :: rest =>
      v < 0 ∧ rest ≠ [] ∧ (∀ c ∈ rest, 48 ≤ c.toNat ∧ c.toNat ≤ 57) ∧
      rest.head? ≠ some '0' ∧ digitsVal rest = v.natAbs
  | cs =>
      0 ≤ v ∧ cs ≠ [] ∧ (∀ c ∈ cs, 48 ≤ c.toNat ∧ c.toNat ≤ 57) ∧
      (cs.head? = some '0' → cs = ['0']) ∧ digitsVal cs = v.natAbs

/-! ## Model of the Go/OPC UA data the codec consumes -/

/-- Model of a Go `interface{}` value handed to `encoding/json.Marshal`:
either it marshals to a fixed byte string (JSON text), or `Marshal` returns
an error.  `Marshal` is deterministic and compositional over slices, which
is all the source relies on. -/
inductive GoDyn where
  | marshalable (json : String)
  | unmarshalable
  deriving DecidableEq, Repr

/-- Model of `encoding/json.Marshal` on one dynamic value. -/
def jsonMarshal : GoDyn → Option String
  | .marshalable j => some j
  | .unmarshalable => none

/-- Model of `encoding/json.Marshal` on a `[]interface{}`: the elementwise
JSON texts joined by commas inside brackets; fails iff some element fails. -/
def jsonMarshalList (xs : List GoDyn) : Option String :=
  (xs.mapM jsonMarshal).map (fun ss => "[" ++ String.intercalate "," ss ++ "]")

/-- Model of `*ua.ExtensionObject` (a non-nil pointer): the structured type
identifier `TypeID.NodeID.String()` and the decoded native representation
`Value`, absent (`none`, Go nil) when the type's schema was not registered. -/
structure ExtensionObject where
  typeId : String
  value : Option GoDyn
  deriving DecidableEq, Repr

/-- The dynamic shapes `variant.Value()` may take, one constructor per arm
of the source's type switch.  Floats carry their IEEE-754 bit pattern (their
decimal rendering is not modelled, see `formatFloat32`).  Go restricts each
integer arm to its width's range; the constructors admit a superset, so
theorems quantified over them cover every Go value.  A `none` entry of
`extObjArray` models a nil `*ua.ExtensionObject` pointer in the slice. -/
inductive UAValue where
  | float32Val (bits : Nat)
  | float64Val (bits : Nat)
  | stringVal (s : String)
  | boolVal (b : Bool)
  | intVal (v : Int)
  | int8Val (v : Int)
  | int16Val (v : Int)
  | int32Val (v : Int)
  | int64Val (v : Int)
  | uintVal (v : Nat)
  | uint8Val (v : Nat)
  | uint16Val (v : Nat)
  | uint32Val (v : Nat)
  | uint64Val (v : Nat)
  | extObj (eo : ExtensionObject)
  | extObjArray (xs : List (Option ExtensionObject))
  | otherVal (d : GoDyn)
  deriving DecidableEq, Repr

/-- Model of `ua.StatusOK` (the OPC UA "Good" status code, numerically 0);
`errors.Is(dataValue.Status, ua.StatusOK)` compares status codes. -/
def statusOK : Nat := 0

/-- Model of `*ua.DataValue`: the variant (`none` models a nil `Value`
field, `some u` a variant whose `Value()` has dynamic shape `u`) and the
status code. -/
structure DataValue where
  value : Option UAValue
  status : Nat
  deriving DecidableEq, Repr

/-- Model of `NodeDef`: the only field `getBytesFromValue` reads is the
node identifier's string form `NodeID.String()`. -/
structure NodeDef where
  nodeId : String
  deriving DecidableEq, Repr

/-! ## Logging -/

inductive Severity where
  | warning
  | error
  deriving DecidableEq, Repr

/-- One log call of `getBytesFromValue`, carrying exactly the identifiers
the Go format string names. -/
inductive LogEvent where
  | errorVariantNil
  | warnBadStatus (nodeId : String) (status : Nat)
  | warnExtObjNotDecodable (nodeId : String) (typeId : String)
  | errorMarshalExtObj (nodeId : String)
  | warnArrayNoneDecodable (nodeId : String) (total : Nat)
  | errorMarshalExtObjArray (nodeId : String)
  | errorMarshalDefault
  | errorEmptyPayload (nodeId : String)
  deriving DecidableEq, Repr

/-- Severity of each log call (Errorf vs Warnf in the source). -/
def LogEvent.severity : LogEvent → Severity
  | .errorVariantNil => .error
  | .warnBadStatus _ _ => .warning
  | .warnExtObjNotDecodable _ _ => .warning
  | .errorMarshalExtObj _ => .error
  | .warnArrayNoneDecodable _ _ => .warning
  | .errorMarshalExtObjArray _ => .error
  | .errorMarshalDefault => .error
  | .errorEmptyPayload _ => .error

/-! ## The Value Codec: getBytesFromValue -/

/-- Result of `getBytesFromValue`: the Go pair `([]byte, string)` plus the
log calls made.  `payload = none` models a nil byte slice; `some s` a
non-nil slice with the bytes of `s` (possibly empty). -/
structure DecodeResult where
  payload : Option String
  tagType : String
  logs : List LogEvent
  deriving DecidableEq, Repr

/-- Go `append` on a byte slice: the result is always non-nil. -/
def goAppend (b : Option String) (s : String) : Option String :=
  some ((b.getD "") ++ s)

/-- The final guard of `getBytesFromValue` (lines 133–136): suppress iff the
slice is nil.  `b` reaches this point as the result of appending to
`make([]byte, 0)`, which is never nil, so the guard never fires. -/
def finalGuard (nodeId : String) (b : Option String) (tagType : String)
    (logs : List LogEvent) : DecodeResult :=
  if b = none then ⟨none, "", logs ++ [.errorEmptyPayload nodeId]⟩
  else ⟨b, tagType, logs⟩

/-- Modelled from the spec: `strconv.FormatFloat(float64(v), 'f', -1, 32)`
renders the shortest round-trip decimal text of an IEEE-754 binary32 value.
The IEEE-754 rendering algorithm is outside this embedding; the formatter is
modelled as an unspecified deterministic function of the bit pattern, which
is all the theorems below depend on. -/
def formatFloat32 (bits : Nat) : String := "float32bits(" ++ formatUint bits ++ ")"

/-- Modelled from the spec: `strconv.FormatFloat(v, 'f', -1, 64)`; see
`formatFloat32`. -/
def formatFloat64 (bits : Nat) : String := "float64bits(" ++ formatUint bits ++ ")"

/-- Embedding of `(g *OPCUAConnection) getBytesFromValue` (core_read.go
lines 28–139), branch for branch. -/
def getBytesFromValue (dataValue : DataValue) (nodeDef : NodeDef) : DecodeResult :=
  match dataValue.value with
  | none => ⟨none, "", [.errorVariantNil]⟩
  | some variant =>
    if dataValue.status = statusOK then
      -- b := make([]byte, 0): empty but non-nil
      let b0 : Option String := some ""
      match variant with
      | .float32Val bits =>
          finalGuard nodeDef.nodeId (goAppend b0 (formatFloat32 bits)) "number" []
      | .float64Val bits =>
          finalGuard nodeDef.nodeId (goAppend b0 (formatFloat64 bits)) "number" []
      | .stringVal s =>
          finalGuard nodeDef.nodeId (goAppend b0 s) "string" []
      | .boolVal v =>
          finalGuard nodeDef.nodeId (goAppend b0 (formatBool v)) "bool" []
      | .intVal v =>
          finalGuard nodeDef.nodeId (goAppend b0 (formatInt v)) "number" []
      | .int8Val v =>
          finalGuard nodeDef.nodeId (goAppend b0 (formatInt v)) "number" []
      | .int16Val v =>
          finalGuard nodeDef.nodeId (goAppend b0 (formatInt v)) "number" []
      | .int32Val v =>
          finalGuard nodeDef.nodeId (goAppend b0 (formatInt v)) "number" []
      | .int64Val v =>
          finalGuard nodeDef.nodeId (goAppend b0 (formatInt v)) "number" []
      | .uintVal v =>
          finalGuard nodeDef.nodeId (goAppend b0 (formatUint v)) "number" []
      | .uint8Val v =>
          finalGuard nodeDef.nodeId (goAppend b0 (formatUint v)) "number" []
      | .uint16Val v =>
          finalGuard nodeDef.nodeId (goAppend b0 (formatUint v)) "number" []
      | .uint32Val v =>
          finalGuard nodeDef.nodeId (goAppend b0 (formatUint v)) "number" []
      | .uint64Val v =>
          finalGuard nodeDef.nodeId (goAppend b0 (formatUint v)) "number" []
      | .extObj eo =>
          match eo.value with
          | none =>
              ⟨none, "", [.warnExtObjNotDecodable nodeDef.nodeId eo.typeId]⟩
          | some dyn =>
              match jsonMarshal dyn with
              | none => ⟨none, "", [.errorMarshalExtObj nodeDef.nodeId]⟩
              | some jsonBytes =>
                  finalGuard nodeDef.nodeId (goAppend b0 jsonBytes) "string" []
      | .extObjArray xs =>
          let decoded := xs.filterMap (fun eo => eo.bind ExtensionObject.value)
          if decoded.length = 0 then
            ⟨none, "", [.warnArrayNoneDecodable nodeDef.nodeId xs.length]⟩
          else
            match jsonMarshalList decoded with
            | none => ⟨none, "", [.errorMarshalExtObjArray nodeDef.nodeId]⟩
            | some jsonBytes =>
                finalGuard nodeDef.nodeId (goAppend b0 jsonBytes) "string" []
      | .otherVal dyn =>
          match jsonMarshal dyn with
          | none => ⟨none, "", [.errorMarshalDefault]⟩
          | some jsonBytes =>
              finalGuard nodeDef.nodeId (goAppend b0 jsonBytes) "string" []
    else
      ⟨none, "", [.warnBadStatus nodeDef.nodeId dataValue.status]⟩

/-! ## The Read Coordinator: Read -/

/-- Model of the response returned by the session client; `Read` returns it
unchanged, so its structure is immaterial — one `DataValue` per tag. -/
abbrev ReadResponse := List DataValue

/-- Model of the error returned by `g.Client.Read`: an OPC UA status-code
error, or any other error value. -/
inductive UAReadError where
  | status (code : Nat)
  | other (msg : String)
  deriving DecidableEq, Repr

/-- Model of `errors.Is(err, code)` for a `ua.StatusCode` target: true iff
the error is that status code. -/
def errIs (e : UAReadError) (code : Nat) : Bool :=
  match e with
  | .status c => c == code
  | .other _ => false

def statusBadSessionIDInvalid : Nat := 0x80250000
def statusBadCommunicationError : Nat := 0x80050000
def statusBadConnectionClosed : Nat := 0x80AE0000
def statusBadTimeout : Nat := 0x800A0000
def statusBadConnectionRejected : Nat := 0x80AC0000
def statusBadServerNotConnected : Nat := 0x80AD0000

/-- The fixed session-fatal fault set: exactly the six codes the source's
switch matches with `errors.Is`. -/
def isSessionFatal (e : UAReadError) : Bool :=
  errIs e statusBadSessionIDInvalid ||
  errIs e statusBadCommunicationError ||
  errIs e statusBadConnectionClosed ||
  errIs e statusBadTimeout ||
  errIs e statusBadConnectionRejected ||
  errIs e statusBadServerNotConnected

/-- The error value `Read` hands back to its caller:
`service.ErrNotConnected` (the canonical reconnect signal) or the client's
original error, unchanged. -/
inductive ReadReturnedError where
  | errNotConnected
  | original (e : UAReadError)
  deriving DecidableEq, Repr

/-- Observable outcome of one `Read` call: the returned response and error,
and how many times `g.Close` was invoked. -/
structure ReadResult where
  resp : Option ReadResponse
  err : Option ReadReturnedError
  closeCalls : Nat
  deriving DecidableEq, Repr

/-- Embedding of `(g *OPCUAConnection) Read` (core_read.go lines 147–178).
`clientResult` is the outcome of `g.Client.Read(ctx, req)`; `closeErr` is
the value `g.Close(ctx)` would return, which the source assigns to `_` and
discards in every fatal branch. -/
def Read (clientResult : Except UAReadError ReadResponse)
    (closeErr : Option UAReadError) : ReadResult :=
  match clientResult with
  | .ok resp => ⟨some resp, none, 0⟩
  | .error err =>
    if errIs err statusBadSessionIDInvalid then ⟨none, some .errNotConnected, 1⟩
    else if errIs err statusBadCommunicationError then ⟨none, some .errNotConnected, 1⟩
    else if errIs err statusBadConnectionClosed then ⟨none, some .errNotConnected, 1⟩
    else if errIs err statusBadTimeout then ⟨none, some .errNotConnected, 1⟩
    else if errIs err statusBadConnectionRejected then ⟨none, some .errNotConnected, 1⟩
    else if errIs err statusBadServerNotConnected then ⟨none, some .errNotConnected, 1⟩
    else ⟨none, some (.original err), 0⟩

/-! ## Helper lemmas -/

lemma str_empty_append (s : String) : "" ++ s = s := by
  cases s
  show String.append _ _ = _
  simp [String.append]

lemma char_ofNat_digit_toNat : ∀ d : Nat, d < 10 → (Char.ofNat (48 + d)).toNat = 48 + d := by
  decide

lemma natDigits_unfold (n : Nat) :
    natDigits n =
      if n < 10 then [Char.ofNat (48 + n)]
      else natDigits (n / 10) ++ [Char.ofNat (48 + n % 10)] := by
  rw [natDigits]
  split <;> rfl

lemma natDigits_ne_nil (n : Nat) : natDigits n ≠ [] := by
  rw [natDigits_unfold]
  split
  · simp
  · simp

lemma digitsVal_append_one (l : List Char) (c : Char) :
    digitsVal (l ++ [c]) = 10 * digitsVal l + (c.toNat - 48) := by
  simp [digitsVal, List.foldl_append]

lemma digitsVal_natDigits (n : Nat) : digitsVal (natDigits n) = n := by
  induction n using Nat.strong_induction_on with
  | _ n ih =>
    rw [natDigits_unfold]
    split
    · next h =>
      simp [digitsVal, char_ofNat_digit_toNat n h]
    · next h =>
      rw [digitsVal_append_one, ih (n / 10) (Nat.div_lt_self (by omega) (by omega)),
        char_ofNat_digit_toNat (n % 10) (Nat.mod_lt n (by omega))]
      omega

lemma natDigits_mem_digit (n : Nat) :
    ∀ c ∈ natDigits n, 48 ≤ c.toNat ∧ c.toNat ≤ 57 := by
  induction n using Nat.strong_induction_on with
  | _ n ih =>
    rw [natDigits_unfold]
    split
    · next h =>
      intro c hc
      simp at hc
      subst hc
      rw [char_ofNat_digit_toNat n h]
      omega
    · next h =>
      intro c hc
      rw [List.mem_append] at hc
      rcases hc with hc | hc
      · exact ih (n / 10) (Nat.div_lt_self (by omega) (by omega)) c hc
      · simp at hc
        subst hc
        rw [char_ofNat_digit_toNat (n % 10) (Nat.mod_lt n (by omega))]
        omega

lemma natDigits_head_zero (n : Nat) :
    (natDigits n).head? = some '0' → n = 0 := by
  induction n using Nat.strong_induction_on with
  | _ n ih =>
    rw [natDigits_unfold]
    split
    · next h =>
      intro hc
      simp at hc
      have hthis := congrArg Char.toNat hc
      have h0 : ('0' : Char).toNat = 48 := rfl
      rw [char_ofNat_digit_toNat n h, h0] at hthis
      omega
    · next h =>
      intro hc
      rw [List.head?_append_of_ne_nil] at hc
      · have := ih (n / 10) (Nat.div_lt_self (by omega) (by omega)) hc
        omega
      · exact natDigits_ne_nil _

lemma natDigits_zero : natDigits 0 = ['0'] := by
  rw [natDigits_unfold]
  decide

/-- `formatInt` produces the canonical base-10 text of its argument. -/
lemma formatInt_canonical (v : Int) : IsCanonicalDecimal (formatInt v) v := by
  rcases lt_or_ge v 0 with hneg | hpos
  · have habs : 1 ≤ v.natAbs := by omega
    rw [formatInt, if_pos hneg]
    show IsCanonicalDecimal ⟨'-' :: natDigits v.natAbs⟩ v
    unfold IsCanonicalDecimal
    refine ⟨hneg, natDigits_ne_nil _, natDigits_mem_digit _, ?_, digitsVal_natDigits _⟩
    intro hzero
    have := natDigits_head_zero v.natAbs hzero
    omega
  · rw [formatInt, if_neg (by omega)]
    show IsCanonicalDecimal ⟨natDigits v.natAbs⟩ v
    have hd := natDigits_mem_digit v.natAbs
    have hcons : ∃ c cs, natDigits v.natAbs = c :: cs := by
      rcases hnil : natDigits v.natAbs with _ | ⟨c, cs⟩
      · exact absurd hnil (natDigits_ne_nil _)
      · exact ⟨c, cs, rfl⟩
    obtain ⟨c, cs, hcons⟩ := hcons
    have hcd : 48 ≤ c.toNat ∧ c.toNat ≤ 57 := hd c (by rw [hcons]; simp)
    have hcm : c ≠ '-' := by
      intro hc
      subst hc
      have h45 : ('-' : Char).toNat = 45 := rfl
      rw [h45] at hcd
      omega
    unfold IsCanonicalDecimal
    rw [hcons]
    split
    · next heq =>
      exact absurd (List.head_eq_of_cons_eq heq) hcm
    · refine ⟨hpos, by simp, ?_, ?_, ?_⟩
      · rw [← hcons]
        exact hd
      · intro hzero
        have h0 : v.natAbs = 0 := natDigits_head_zero v.natAbs (by rw [hcons]; exact hzero)
        rw [← hcons, h0, natDigits_zero]
      · rw [← hcons]
        exact digitsVal_natDigits _

/-! ## Claim theorems: the Read Coordinator -/

/-- C2: for every read failure classified session-fatal (session ID
invalid, communication error, connection closed, timeout, connection
rejected, server not connected), `Read` calls `Close` exactly once and
returns the canonical not-connected error, never the original error;
`Close`'s own failure does not affect the result. -/
theorem Read_sessionFatal_closes_once (e : UAReadError)
    (closeErr : Option UAReadError) (h : isSessionFatal e = true) :
    Read (.error e) closeErr = ⟨none, some .errNotConnected, 1⟩ ∧
    (Read (.error e) closeErr).err ≠ some (.original e) ∧
    Read (.error e) closeErr = Read (.error e) none := by
  unfold isSessionFatal at h
  simp only [Read]
  split_ifs with h1 h2 h3 h4 h5 h6
  · exact ⟨rfl, by simp, trivial⟩
  · exact ⟨rfl, by simp, trivial⟩
  · exact ⟨rfl, by simp, trivial⟩
  · exact ⟨rfl, by simp, trivial⟩
  · exact ⟨rfl, by simp, trivial⟩
  · exact ⟨rfl, by simp, trivial⟩
  · rw [Bool.not_eq_true] at h1 h2 h3 h4 h5 h6
    rw [h1, h2, h3, h4, h5, h6] at h
    simp at h

theorem Read_sessionFatal_closes_once_witness :
    isSessionFatal (.status 0x800A0000) = true ∧
    Read (.error (.status 0x800A0000)) (some (.other "close failed")) =
      ⟨none, some .errNotConnected, 1⟩ :=
  ⟨by decide,
   (Read_sessionFatal_closes_once (.status 0x800A0000)
     (some (.other "close failed")) (by decide)).1⟩

/-- C4: for every read failure not classified session-fatal, `Read` does
not call `Close` and returns the original error unchanged. -/
theorem Read_otherError_passthrough (e : UAReadError)
    (closeErr : Option UAReadError) (h : isSessionFatal e = false) :
    Read (.error e) closeErr = ⟨none, some (.original e), 0⟩ := by
  unfold isSessionFatal at h
  simp only [Read]
  split_ifs with h1 h2 h3 h4 h5 h6
  · rw [h1] at h; simp at h
  · rw [h2] at h; simp at h
  · rw [h3] at h; simp at h
  · rw [h4] at h; simp at h
  · rw [h5] at h; simp at h
  · rw [h6] at h; simp at h
  · rfl

theorem Read_otherError_passthrough_witness :
    isSessionFatal (.status 0x80340000) = false ∧
    Read (.error (.status 0x80340000)) none =
      ⟨none, some (.original (.status 0x80340000)), 0⟩ :=
  ⟨by decide, Read_otherError_passthrough (.status 0x80340000) none (by decide)⟩

/-! ## Claim theorems: the Value Codec -/

/-- C3: for every quality-stamped value whose status is not OK, the codec
returns Suppressed (nil payload, empty tagType), whatever the shape of the
raw value. -/
theorem getBytesFromValue_badStatus (dataValue : DataValue) (nodeDef : NodeDef)
    (h : dataValue.status ≠ statusOK) :
    (getBytesFromValue dataValue nodeDef).payload = none ∧
    (getBytesFromValue dataValue nodeDef).tagType = "" := by
  obtain ⟨val, st⟩ := dataValue
  cases val with
  | none => exact ⟨rfl, rfl⟩
  | some u =>
    simp only [getBytesFromValue]
    rw [if_neg h]
    exact ⟨rfl, rfl⟩

theorem getBytesFromValue_badStatus_witness :
    (2153840640 : Nat) ≠ statusOK ∧
    (getBytesFromValue ⟨some (.int32Val 42), 2153840640⟩ ⟨"ns=0;i=1001"⟩).payload = none :=
  ⟨by decide,
   (getBytesFromValue_badStatus ⟨some (.int32Val 42), 2153840640⟩ ⟨"ns=0;i=1001"⟩
     (by decide)).1⟩

/-- C9: the codec is a deterministic pure function of its input: two calls
on equal inputs produce byte-identical payloads, tag types and logs. -/
theorem getBytesFromValue_deterministic (dv₁ dv₂ : DataValue)
    (nd₁ nd₂ : NodeDef) (hdv : dv₁ = dv₂) (hnd : nd₁ = nd₂) :
    getBytesFromValue dv₁ nd₁ = getBytesFromValue dv₂ nd₂ := by
  subst hdv hnd
  rfl

theorem getBytesFromValue_deterministic_witness :
    getBytesFromValue ⟨some (.stringVal "hello"), statusOK⟩ ⟨"ns=0;i=1001"⟩ =
    getBytesFromValue ⟨some (.stringVal "hello"), statusOK⟩ ⟨"ns=0;i=1001"⟩ :=
  getBytesFromValue_deterministic _ _ _ _ rfl rfl

/-- C1 (failing input): with status OK and the empty text scalar, the codec
returns an empty-but-present payload together with the populated tagType
"string" instead of a Suppressed result: the final guard tests only slice
nil-ness, and the slice, created by `make([]byte, 0)` and only appended to,
is never nil, so the guard cannot fire on an empty payload. -/
theorem getBytesFromValue_emptyString_notSuppressed :
    getBytesFromValue ⟨some (.stringVal ""), statusOK⟩ ⟨"ns=0;i=1001"⟩ =
      ⟨some "", "string", []⟩ ∧ "string" ≠ "" := by
  constructor
  · rfl
  · decide

/-- C6: for every structured value whose decoded representation is absent,
the codec returns Suppressed and logs exactly one warning-severity message
naming the tag identifier and the structured type's identifier. -/
theorem getBytesFromValue_extObjUndecodable (dataValue : DataValue)
    (nodeDef : NodeDef) (eo : ExtensionObject)
    (hst : dataValue.status = statusOK)
    (hval : dataValue.value = some (.extObj eo)) (hund : eo.value = none) :
    getBytesFromValue dataValue nodeDef =
      ⟨none, "", [.warnExtObjNotDecodable nodeDef.nodeId eo.typeId]⟩ ∧
    (LogEvent.warnExtObjNotDecodable nodeDef.nodeId eo.typeId).severity = .warning := by
  refine ⟨?_, rfl⟩
  obtain ⟨val, st⟩ := dataValue
  simp only at hst hval
  subst hst hval
  simp [getBytesFromValue, hund]

theorem getBytesFromValue_extObjUndecodable_witness :
    (statusOK = statusOK ∧ ExtensionObject.value ⟨"ns=4;i=202", none⟩ = none) ∧
    getBytesFromValue ⟨some (.extObj ⟨"ns=4;i=202", none⟩), statusOK⟩ ⟨"ns=0;i=1001"⟩ =
      ⟨none, "", [.warnExtObjNotDecodable "ns=0;i=1001" "ns=4;i=202"]⟩ :=
  ⟨⟨rfl, rfl⟩,
   (getBytesFromValue_extObjUndecodable
     ⟨some (.extObj ⟨"ns=4;i=202", none⟩), statusOK⟩ ⟨"ns=0;i=1001"⟩
     ⟨"ns=4;i=202", none⟩ rfl rfl rfl).1⟩

/-- The integer-scalar arms of the type switch, as one partial projection:
`some v` exactly when the dynamic shape is a signed or unsigned integer of
some width holding value `v`. -/
def intScalarValue : UAValue → Option Int
  | .intVal v => some v
  | .int8Val v => some v
  | .int16Val v => some v
  | .int32Val v => some v
  | .int64Val v => some v
  | .uintVal v => some (v : Int)
  | .uint8Val v => some (v : Int)
  | .uint16Val v => some (v : Int)
  | .uint32Val v => some (v : Int)
  | .uint64Val v => some (v : Int)
  | _ => none

lemma formatInt_ofNat (n : Nat) : formatInt (n : Int) = formatUint n := by
  rw [formatInt, if_neg (by omega)]
  simp

/-- C7: for every signed or unsigned integer scalar holding value `v`, at
status OK the codec returns tagType "number" and payload equal to the
canonical base-10 text of `v` (no leading zeros, sign exactly for
negatives). -/
theorem getBytesFromValue_intScalar (dataValue : DataValue) (nodeDef : NodeDef)
    (u : UAValue) (v : Int) (hst : dataValue.status = statusOK)
    (hval : dataValue.value = some u) (hint : intScalarValue u = some v) :
    getBytesFromValue dataValue nodeDef = ⟨some (formatInt v), "number", []⟩ ∧
    IsCanonicalDecimal (formatInt v) v := by
  refine ⟨?_, formatInt_canonical v⟩
  obtain ⟨val, st⟩ := dataValue
  simp only at hst hval
  subst hst hval
  cases u with
  | intVal w =>
      simp only [intScalarValue, Option.some.injEq] at hint
      subst hint
      simp [getBytesFromValue, finalGuard, goAppend, str_empty_append]
  | int8Val w =>
      simp only [intScalarValue, Option.some.injEq] at hint
      subst hint
      simp [getBytesFromValue, finalGuard, goAppend, str_empty_append]
  | int16Val w =>
      simp only [intScalarValue, Option.some.injEq] at hint
      subst hint
      simp [getBytesFromValue, finalGuard, goAppend, str_empty_append]
  | int32Val w =>
      simp only [intScalarValue, Option.some.injEq] at hint
      subst hint
      simp [getBytesFromValue, finalGuard, goAppend, str_empty_append]
  | int64Val w =>
      simp only [intScalarValue, Option.some.injEq] at hint
      subst hint
      simp [getBytesFromValue, finalGuard, goAppend, str_empty_append]
  | uintVal w =>
      simp only [intScalarValue, Option.some.injEq] at hint
      subst hint
      simp [getBytesFromValue, finalGuard, goAppend, str_empty_append, formatInt_ofNat]
  | uint8Val w =>
      simp only [intScalarValue, Option.some.injEq] at hint
      subst hint
      simp [getBytesFromValue, finalGuard, goAppend, str_empty_append, formatInt_ofNat]
  | uint16Val w =>
      simp only [intScalarValue, Option.some.injEq] at hint
      subst hint
      simp [getBytesFromValue, finalGuard, goAppend, str_empty_append, formatInt_ofNat]
  | uint32Val w =>
      simp only [intScalarValue, Option.some.injEq] at hint
      subst hint
      simp [getBytesFromValue, finalGuard, goAppend, str_empty_append, formatInt_ofNat]
  | uint64Val w =>
      simp only [intScalarValue, Option.some.injEq] at hint
      subst hint
      simp [getBytesFromValue, finalGuard, goAppend, str_empty_append, formatInt_ofNat]
  | float32Val b => simp [intScalarValue] at hint
  | float64Val b => simp [intScalarValue] at hint
  | stringVal s => simp [intScalarValue] at hint
  | boolVal b => simp [intScalarValue] at hint
  | extObj eo => simp [intScalarValue] at hint
  | extObjArray xs => simp [intScalarValue] at hint
  | otherVal d => simp [intScalarValue] at hint

theorem getBytesFromValue_intScalar_witness :
    intScalarValue (.int8Val (-5)) = some (-5) ∧
    getBytesFromValue ⟨some (.int8Val (-5)), statusOK⟩ ⟨"ns=0;i=1001"⟩ =
      ⟨some (formatInt (-5)), "number", []⟩ ∧
    IsCanonicalDecimal (formatInt (-5)) (-5) :=
  ⟨rfl,
   (getBytesFromValue_intScalar ⟨some (.int8Val (-5)), statusOK⟩ ⟨"ns=0;i=1001"⟩
     (.int8Val (-5)) (-5) rfl rfl rfl).1,
   (getBytesFromValue_intScalar ⟨some (.int8Val (-5)), statusOK⟩ ⟨"ns=0;i=1001"⟩
     (.int8Val (-5)) (-5) rfl rfl rfl).2⟩

/-- C5: for an array of structured values at status OK, the codec keeps
exactly the elements whose decoded representation is present, in original
relative order: if none remains it returns Suppressed with a warning
counting the whole array; otherwise it returns the JSON array text of the
kept elements' serializations joined in order, with tagType "string". -/
theorem getBytesFromValue_extObjArray (dataValue : DataValue)
    (nodeDef : NodeDef) (xs : List (Option ExtensionObject))
    (hst : dataValue.status = statusOK)
    (hval : dataValue.value = some (.extObjArray xs)) :
    (xs.filterMap (fun eo => eo.bind ExtensionObject.value) = [] →
      getBytesFromValue dataValue nodeDef =
        ⟨none, "", [.warnArrayNoneDecodable nodeDef.nodeId xs.length]⟩) ∧
    (∀ ss : List String,
      xs.filterMap (fun eo => eo.bind ExtensionObject.value) ≠ [] →
      (xs.filterMap (fun eo => eo.bind ExtensionObject.value)).mapM jsonMarshal = some ss →
      getBytesFromValue dataValue nodeDef =
        ⟨some ("[" ++ String.intercalate "," ss ++ "]"), "string", []⟩) := by
  obtain ⟨val, st⟩ := dataValue
  simp only at hst hval
  subst hst hval
  constructor
  · intro hnil
    simp [getBytesFromValue, hnil]
  · intro ss hne hm
    have hlen : (xs.filterMap (fun eo => eo.bind ExtensionObject.value)).length ≠ 0 := by
      simpa [List.length_eq_zero] using hne
    have hj : jsonMarshalList (xs.filterMap (fun eo => eo.bind ExtensionObject.value)) =
        some ("[" ++ String.intercalate "," ss ++ "]") := by
      rw [jsonMarshalList, hm]
      rfl
    simp [getBytesFromValue, hlen, hj, finalGuard, goAppend, str_empty_append]

theorem getBytesFromValue_extObjArray_witness :
    ([some ⟨"ns=4;i=202", none⟩, none,
        some ⟨"ns=0;i=724", some (.marshalable "1.5")⟩] :
      List (Option ExtensionObject)).filterMap
        (fun eo => eo.bind ExtensionObject.value) ≠ [] ∧
    getBytesFromValue
      ⟨some (.extObjArray [some ⟨"ns=4;i=202", none⟩, none,
        some ⟨"ns=0;i=724", some (.marshalable "1.5")⟩]), statusOK⟩
      ⟨"ns=0;i=1001"⟩ =
      ⟨some ("[" ++ String.intercalate "," ["1.5"] ++ "]"), "string", []⟩ :=
  ⟨by decide,
   (getBytesFromValue_extObjArray
     ⟨some (.extObjArray [some ⟨"ns=4;i=202", none⟩, none,
       some ⟨"ns=0;i=724", some (.marshalable "1.5")⟩]), statusOK⟩
     ⟨"ns=0;i=1001"⟩ _ rfl rfl).2 ["1.5"] (by decide) rfl⟩

lemma filterMap_getD_value (xs : List (Option ExtensionObject)) (t : String) :
    (xs.map (fun eo => some (eo.getD ⟨t, none⟩))).filterMap
        (fun eo => eo.bind ExtensionObject.value) =
      xs.filterMap (fun eo => eo.bind ExtensionObject.value) := by
  induction xs with
  | nil => rfl
  | cons hd tl ih =>
    cases hd <;> simp [List.filterMap_cons, ih]

/-- C10: a nil pointer in an array of structured values is treated exactly
like an undecodable element: replacing every nil entry by a non-nil
undecodable Extension Object (any type identifier) leaves the codec result
unchanged, and an all-nil array is Suppressed with the warning still
counting every entry of the array. -/
theorem getBytesFromValue_extObjArray_nilElems (dataValue : DataValue)
    (nodeDef : NodeDef) (xs : List (Option ExtensionObject)) (t : String)
    (hst : dataValue.status = statusOK)
    (hval : dataValue.value = some (.extObjArray xs)) :
    (getBytesFromValue dataValue nodeDef =
      getBytesFromValue
        ⟨some (.extObjArray (xs.map (fun eo => some (eo.getD ⟨t, none⟩)))), statusOK⟩
        nodeDef) ∧
    ((∀ eo ∈ xs, eo = none) →
      getBytesFromValue dataValue nodeDef =
        ⟨none, "", [.warnArrayNoneDecodable nodeDef.nodeId xs.length]⟩) := by
  obtain ⟨val, st⟩ := dataValue
  simp only at hst hval
  subst hst hval
  constructor
  · simp only [getBytesFromValue]
    rw [filterMap_getD_value, List.length_map]
  · intro hnil
    have hfm : xs.filterMap (fun eo => eo.bind ExtensionObject.value) = [] := by
      rw [List.filterMap_eq_nil_iff]
      intro eo heo
      rw [hnil eo heo]
      rfl
    simp [getBytesFromValue, hfm]

theorem getBytesFromValue_extObjArray_nilElems_witness :
    (∀ eo ∈ ([none, none] : List (Option ExtensionObject)), eo = none) ∧
    getBytesFromValue ⟨some (.extObjArray [none, none]), statusOK⟩ ⟨"ns=0;i=1001"⟩ =
      ⟨none, "", [.warnArrayNoneDecodable "ns=0;i=1001" 2]⟩ :=
  ⟨by decide,
   (getBytesFromValue_extObjArray_nilElems
     ⟨some (.extObjArray [none, none]), statusOK⟩ ⟨"ns=0;i=1001"⟩ [none, none]
     "ns=4;i=999" rfl rfl).2 (by decide)⟩

end OpcuaPlugin
